import Mathlib

/-
Verification of the schema-to-type mapping engine of the knex-types
module (a TypeScript-definition generator for PostgreSQL schemas).
The definitions below are a shallow embedding of the source module:
catalog rows become structures, the override maps become functions from
keys to entries, and the generation pass becomes a small state monad
recording the write trace together with the stream/handle cleanup calls.
-/

namespace KnexTypes

/-- Catalog row for one enum member, as returned by the
pg_type/pg_enum query: key is the enum type name, value one member
label. -/
structure Enum where
  key : String
  value : String
deriving Repr, DecidableEq

/-- Catalog row for one column, as returned by the
information_schema.columns query. -/
structure Column where
  table : String
  column : String
  schema : String
  nullable : Bool
  default : Option String
  type : String
  udt : String
deriving Repr, DecidableEq

/-- The category argument of overrideName. -/
inductive Category where
  | table
  | schema
  | column
deriving Repr, DecidableEq

/-- One entry of the name-override map: either a literal string or a
resolver function receiving the column descriptor, the category and a
default value, returning a string or null (modelled as Option). -/
inductive NameEntry where
  | lit (s : String)
  | fn (f : Column → Category → Option String → Option String)

/-- One entry of the type-override map: either a literal string or a
function. In the source a function entry is called with one argument
from the three priority tiers and with two arguments from the wildcard
post-processor; the second parameter is therefore an Option that is
none when the call site passes no second argument, and the result may
be null (Option). -/
inductive TypeEntry where
  | lit (s : String)
  | fn (f : Column → Option String → Option String)

/-- A JS object used as an override map: lookup by string key, none
when the key is absent. -/
def NameOverrides : Type := String → Option NameEntry

/-- A JS object used as a type-override map. -/
def TypeOverrides : Type := String → Option TypeEntry

/-- The options structure of updateTypes, restricted to the fields the
generation pass reads. The schema and exclude fields model the list
form of the corresponding options (the comma-separated string form is
split into the same list before use). -/
structure Options where
  overrides : NameOverrides := fun _ => none
  typeOverrides : TypeOverrides := fun _ => none
  overrideTableColumnTypes : Option Bool := none
  overrideColumnTypes : Option Bool := none
  overrideDefaultTypes : Option Bool := none
  prefixText : Option String := none
  suffixText : Option String := none
  schema : Option (List String) := none
  exclude : List String := []
  tablesEnumName : Option String := none
  tablesTypeName : Option String := none

/-- Models JS string interpolation of a string-or-null value: null is
rendered as the text null. -/
def jsString : Option String → String
  | some s => s
  | none => "null"

/-- Models the JS expression a || b on an optional string: an absent or
empty (falsy) value yields the fallback. -/
def jsOr (o : Option String) (d : String) : String :=
  match o with
  | some s => if s = "" then d else s
  | none => d

/-- Models the JS String startsWith test (written on the character
lists so it evaluates in the kernel). -/
def jsStartsWith (s p : String) : Bool := p.data.isPrefixOf s.data

/-- Models lodash upperFirst: uppercase the first character. -/
def upperFirst (s : String) : String :=
  match s.data with
  | [] => ""
  | c :: cs => String.mk (c.toUpper :: cs)

/-- One step of the word splitter: the accumulator holds the finished
words and the current word in reverse. -/
def wordsStep (acc : List (List Char) × List Char) (c : Char) :
    List (List Char) × List Char :=
  let (ws, cur) := acc
  if c.isAlpha || c.isDigit then
    match cur with
    | [] => (ws, [c])
    | p :: _ =>
      if c.isUpper && !p.isUpper then (ws ++ [cur.reverse], [c])
      else (ws, c :: cur)
  else
    match cur with
    | [] => (ws, [])
    | _ => (ws ++ [cur.reverse], [])

/-- Models the lodash word splitter on ASCII identifiers: words are
maximal runs of letters and digits, additionally split at a
lower-to-upper case boundary. lodash is an external dependency of the
module; this is its behaviour on the ASCII identifiers the catalog
produces. -/
def splitWords (s : String) : List String :=
  let (ws, cur) := s.data.foldl wordsStep ([], [])
  let ws := match cur with
    | [] => ws
    | _ => ws ++ [cur.reverse]
  ws.map String.mk

/-- Lowercase every character of a string (written on the character
list so it evaluates in the kernel). -/
def toLowerStr (s : String) : String := String.mk (s.data.map Char.toLower)

/-- Models lodash camelCase: split into words, lowercase them, then
capitalize every word after the first and concatenate. -/
def camelCase (s : String) : String :=
  match splitWords s with
  | [] => ""
  | w :: ws =>
      toLowerStr w ++ String.join (ws.map fun w => upperFirst (toLowerStr w))

/-- First character of a JS identifier. -/
def isIdentStart (c : Char) : Bool := c.isAlpha || c = '$' || c = '_'

/-- Subsequent character of a JS identifier. -/
def isIdentChar (c : Char) : Bool := isIdentStart c || c.isDigit

/-- The regular expression test of sanitize. -/
def isValidIdentifier (s : String) : Bool :=
  match s.data with
  | [] => false
  | c :: cs => isIdentStart c && cs.all isIdentChar

/-- Escape one character the way JSON.stringify escapes string
contents. -/
def jsonEscapeChar (c : Char) : String :=
  if c = '"' then "\\\""
  else if c = '\\' then "\\\\"
  else if c = '\n' then "\\n"
  else if c = '\t' then "\\t"
  else if c = '\r' then "\\r"
  else String.singleton c

/-- Models JSON.stringify on a string value. -/
def jsonStringify (s : String) : String :=
  "\"" ++ String.join (s.data.map jsonEscapeChar) ++ "\""

/-- sanitize from the source: wrap the property identifier into quotes
when it contains invalid characters. -/
def sanitize (name : String) : String :=
  if isValidIdentifier name then name else jsonStringify name

/-- The array-stripped storage tag: when the catalog type is ARRAY the
leading underscore of udt names the element type. Computed inline both
in getType and in overrideType in the source. -/
def strippedUdt (x : Column) : String :=
  if x.type = "ARRAY" then x.udt.drop 1 else x.udt

/-- getType from the source (the override-capable revision): map the
array-stripped storage tag to the emitted base type, consulting the
custom-types map (the collected enum names) before falling back to
unknown. -/
def getType (x : Column) (customTypes : String → Option String) : String :=
  let udt := strippedUdt x
  if udt = "bool" then "boolean"
  else if ["text", "citext", "money", "numeric", "int8", "char", "character",
      "bpchar", "varchar", "time", "tsquery", "tsvector", "uuid", "xml",
      "cidr", "inet", "macaddr"].contains udt then "string"
  else if ["smallint", "integer", "int", "int4", "real", "float", "float4",
      "float8"].contains udt then "number"
  else if ["date", "timestamp", "timestamptz"].contains udt then "Date"
  else if udt = "json" ∨ udt = "jsonb" then
    match x.default with
    | some d =>
        if d ≠ "" then
          if jsStartsWith d "\x27\x7b" then "Record<string, unknown>"
          else if jsStartsWith d "\x27[" then "unknown[]"
          else "unknown"
        else "unknown"
    | none => "unknown"
  else if udt = "bytea" then "Buffer"
  else if udt = "interval" then "PostgresInterval"
  else (customTypes udt).getD "unknown"

/-- Apply a type-override entry the way the three priority tiers do:
a literal is used verbatim, a function is called with the descriptor
only (no second argument). -/
def applyTypeEntry (e : TypeEntry) (x : Column) : Option String :=
  match e with
  | TypeEntry.lit s => some s
  | TypeEntry.fn f => f x none

/-- overrideType from the source: consult the type-override map with
the table.column key, then the column key, then the array-stripped
storage tag, each tier gated by its boolean option defaulting to true;
the first present key decides and its entry is applied; absent keys
fall through; no key present yields null. -/
def overrideType (x : Column) (options : Options) : Option String :=
  let typeOverrides := options.typeOverrides
  let overrideTableColumnTypes := options.overrideTableColumnTypes.getD true
  match (if overrideTableColumnTypes then
      typeOverrides (x.table ++ "." ++ x.column) else none) with
  | some e => applyTypeEntry e x
  | none =>
    let overrideColumnTypes := options.overrideColumnTypes.getD true
    match (if overrideColumnTypes then typeOverrides x.column else none) with
    | some e => applyTypeEntry e x
    | none =>
      let overrideDefaultTypes := options.overrideDefaultTypes.getD true
      match (if overrideDefaultTypes then
          typeOverrides (strippedUdt x) else none) with
      | some e => applyTypeEntry e x
      | none => none

/-- typePostProcessor from the source: when the map holds a wildcard
key, a literal entry replaces the assembled type and a function entry
is called with the descriptor and the assembled type, its result
interpolated into the output; otherwise the assembled type stands. -/
def typePostProcessor (x : Column) (type : String) (options : Options) :
    String :=
  let typeOverrides := options.typeOverrides
  match typeOverrides "*" with
  | some (TypeEntry.lit s) => s
  | some (TypeEntry.fn f) => jsString (f x (some type))
  | none => type

/-- The base type of a column before structural suffixes: the override
result when present, else the storage-tag mapping. This is the
expression overrideType(x, options) getType(x, enumsMap) of the
source, with the null-coalescing operator made explicit. -/
def baseType (x : Column) (enumsMap : String → Option String)
    (options : Options) : String :=
  (overrideType x options).getD (getType x enumsMap)

/-- The assembled type of a column: base type, then the array suffix
when the catalog type is ARRAY, then the null suffix when the column
is nullable, in that order. -/
def assembledType (x : Column) (enumsMap : String → Option String)
    (options : Options) : String :=
  let type0 := baseType x enumsMap options
  let type1 := if x.type = "ARRAY" then type0 ++ "[]" else type0
  if x.nullable then type1 ++ " | null" else type1

/-- The emitted type of a column: the assembled type run through the
wildcard post-processor. -/
def columnType (x : Column) (enumsMap : String → Option String)
    (options : Options) : String :=
  typePostProcessor x (assembledType x enumsMap options) options

/-- The raw value of a column for a name category. -/
def categoryValue (x : Column) : Category → String
  | Category.table => x.table
  | Category.schema => x.schema
  | Category.column => x.column

/-- Apply a name-override entry: a literal is used verbatim, a function
is called with the descriptor, the category and the given third
argument. -/
def applyNameEntry (e : NameEntry) (x : Column) (category : Category)
    (v : Option String) : Option String :=
  match e with
  | NameEntry.lit s => some s
  | NameEntry.fn f => f x category v

/-- The pre-wildcard part of overrideName: for the column category try
the table.column key and else the column key; for the other categories
try the raw value as key; a matching entry is applied with the raw
category value as third argument; no match yields null. -/
def specificOverrideName (x : Column) (category : Category)
    (overrides : NameOverrides) : Option String :=
  let defaultValue := categoryValue x category
  if category = Category.column then
    match overrides (x.table ++ "." ++ x.column) with
    | some e => applyNameEntry e x category (some defaultValue)
    | none =>
      match overrides x.column with
      | some e => applyNameEntry e x category (some defaultValue)
      | none => none
  else
    match overrides (categoryValue x category) with
    | some e => applyNameEntry e x category (some defaultValue)
    | none => none

/-- overrideName from the source: resolve the specific tiers, then,
when the map holds a wildcard key, apply the wildcard entry last with
the name resolved so far as third argument, its result replacing that
name. -/
def overrideName (x : Column) (category : Category)
    (overrides : NameOverrides) : Option String :=
  let name := specificOverrideName x category overrides
  match overrides "*" with
  | some e => applyNameEntry e x category name
  | none => name

/-- The schema partition of updateTypes: the reduce pushes every entry
verbatim into the exclude list when it starts with an exclamation mark
and into the include list otherwise. -/
def partitionSchemas (schema : List String) : List String × List String :=
  schema.foldl
    (fun acc s =>
      if jsStartsWith s "!" then (acc.1, acc.2 ++ [s])
      else (acc.1 ++ [s], acc.2))
    ([], [])

/-- The row subset the column catalog query returns: rows whose schema
is in the include list, not in the exclude list, and whose table is not
in the table exclude list (the whereIn and whereNotIn clauses). -/
def filterColumns (rows : List Column) (includeSchemas excludeSchemas
    exclude : List String) : List Column :=
  rows.filter fun x =>
    includeSchemas.contains x.schema
      && !(excludeSchemas.contains x.schema)
      && !(exclude.contains x.table)

/-- Models the JS expression overrides[key] ?? dflt used for enum
names: the override map may also hold resolver functions, and a
function value is truthy in JS, so it would be kept by the
null-coalescing operator and interpolated as its source text; the
model renders that case with a fixed placeholder (no claim depends on
it). -/
def rawNameOrDefault (ov : NameOverrides) (key dflt : String) : String :=
  match ov key with
  | some (NameEntry.lit s) => s
  | some (NameEntry.fn _) => "function"
  | none => dflt

/-- The enum member label normalisation: dots and dashes become
underscores before PascalCasing. -/
def replaceDotDash (s : String) : String :=
  String.mk (s.data.map fun c => if c = '.' ∨ c = '-' then '_' else c)

/-- The lines the enums forEach writes for entry x at index i: a header
when the previous entry has a different key, the member line, and a
closer when the next entry has a different key. -/
def enumLinesAt (enums : List Enum) (ov : NameOverrides) (i : Nat)
    (x : Enum) : List String :=
  let prevSame := match (if i = 0 then none else enums.get? (i - 1)) with
    | some p => p.key == x.key
    | none => false
  let nextSame := match enums.get? (i + 1) with
    | some p => p.key == x.key
    | none => false
  let header : List String :=
    if prevSame then []
    else
      let enumName := rawNameOrDefault ov x.key (upperFirst (camelCase x.key))
      ["export enum " ++ enumName ++ " \x7b\n"]
  let key := rawNameOrDefault ov (x.key ++ "." ++ x.value)
    (upperFirst (camelCase (replaceDotDash x.value)))
  let body := "  " ++ key ++ " = \"" ++ x.value ++ "\",\n"
  header ++ [body] ++ (if nextSame then [] else ["\x7d;\n\n"])

/-- All lines of the enum emission loop. -/
def enumLines (enums : List Enum) (ov : NameOverrides) : List String :=
  ((List.range enums.length).map fun i =>
    match enums.get? i with
    | some x => enumLinesAt enums ov i x
    | none => []).flatten

/-- The enumsMap of updateTypes: enum key to resolved enum name. -/
def enumsMapOf (enums : List Enum) (ov : NameOverrides) :
    String → Option String :=
  fun k =>
    match enums.find? (fun e => e.key == k) with
    | some e => some (rawNameOrDefault ov e.key (upperFirst (camelCase e.key)))
    | none => none

/-- The unique schema and table combination list, in first-appearance
order (the Set of JSON.stringify pairs of the source). Pairs are
(table, schema). -/
def tablesOf (columns : List Column) : List (String × String) :=
  columns.foldl
    (fun acc x =>
      if acc.contains (x.table, x.schema) then acc
      else acc ++ [(x.table, x.schema)])
    []

/-- The composite key and runtime value emitted for one table: the
first column of the table supplies the descriptor; table and schema
names go through overrideName with PascalCase fallbacks, the public
schema contributing nothing. -/
def tableKeyValue (columns : List Column) (ov : NameOverrides)
    (t : String × String) : String × String :=
  match columns.find? (fun x => x.table == t.1 && x.schema == t.2) with
  | none => ("", "")
  | some x =>
    let tableName :=
      (overrideName x Category.table ov).getD (upperFirst (camelCase x.table))
    let schemaName0 :=
      if x.schema ≠ "public" then upperFirst (camelCase x.schema) else ""
    let schemaName := (overrideName x Category.schema ov).getD schemaName0
    let key := schemaName ++ tableName
    let value := (if x.schema ≠ "public" then x.schema ++ "." else "") ++ x.table
    (key, value)

/-- The lines of the tables enum block. -/
def tablesEnumLines (columns : List Column) (options : Options) :
    List String :=
  ["export enum " ++ jsOr options.tablesEnumName "Table" ++ " \x7b\n"]
    ++ ((tablesOf columns).map fun t =>
        let kv := tableKeyValue columns options.overrides t
        "  " ++ kv.1 ++ " = \"" ++ kv.2 ++ "\",\n")
    ++ ["\x7d;\n\n"]

/-- The lines of the tables type block. -/
def tablesTypeLines (columns : List Column) (options : Options) :
    List String :=
  ["export type " ++ jsOr options.tablesTypeName "Tables" ++ " = \x7b\n"]
    ++ ((tablesOf columns).map fun t =>
        let kv := tableKeyValue columns options.overrides t
        "  \"" ++ kv.2 ++ "\": " ++ kv.1 ++ ",\n")
    ++ ["\x7d;\n\n"]

/-- The lines the record-type forEach writes for column x at index i: a
type header when the previous column belongs to a different table (the
source compares table names only), the column line, and a closer when
the next column belongs to a different table. -/
def recordLinesAt (columns : List Column)
    (enumsMap : String → Option String) (options : Options) (i : Nat)
    (x : Column) : List String :=
  let prevSame := match (if i = 0 then none else columns.get? (i - 1)) with
    | some p => p.table == x.table
    | none => false
  let nextSame := match columns.get? (i + 1) with
    | some p => p.table == x.table
    | none => false
  let header : List String :=
    if prevSame then []
    else
      let tableName := (overrideName x Category.table options.overrides).getD
        (upperFirst (camelCase x.table))
      let schemaName0 :=
        if x.schema ≠ "public" then upperFirst (camelCase x.schema) else ""
      let schemaName :=
        (overrideName x Category.schema options.overrides).getD schemaName0
      ["export type " ++ schemaName ++ tableName ++ " = \x7b\n"]
  let columnName :=
    (overrideName x Category.column options.overrides).getD x.column
  let line := "  " ++ sanitize columnName ++ ": "
    ++ columnType x enumsMap options ++ ";\n"
  header ++ [line] ++ (if nextSame then [] else ["\x7d;\n\n"])

/-- All lines of the record-type emission loop. -/
def recordTypeLines (enums : List Enum) (columns : List Column)
    (options : Options) : List String :=
  let enumsMap := enumsMapOf enums options.overrides
  ((List.range columns.length).map fun i =>
    match columns.get? i with
    | some x => recordLinesAt columns enumsMap options i x
    | none => []).flatten

/-- The two fixed banner lines written before anything else. -/
def bannerLines : List String :=
  ["// The TypeScript definitions below are automatically generated.\n",
   "// Do not touch them, or risk, your modifications being lost.\n\n"]

/-- The prefix writes: nothing when the option is absent or empty
(falsy in JS), else the text followed by a blank-line separator. -/
def prefixLines (options : Options) : List String :=
  match options.prefixText with
  | some p => if p = "" then [] else [p, "\n\n"]
  | none => []

/-- The suffix writes. -/
def suffixLines (options : Options) : List String :=
  match options.suffixText with
  | some s => if s = "" then [] else [s, "\n"]
  | none => []

/-- The state the generation pass threads: the write trace, the number
of write calls made, and the number of calls to the output-stream end
and database-handle destroy actions. -/
structure GenState where
  written : List String
  writeCount : Nat
  endCalls : Nat
  destroyCalls : Nat
deriving Repr, DecidableEq

/-- The errors a run can raise: a failing output write or a failing
catalog query. -/
inductive GenError where
  | writeError
  | dbError
deriving Repr, DecidableEq

/-- The generation monad: state passing with an exception result; the
state survives an exception so a finally clause can still act on it. -/
def Gen (α : Type) : Type := GenState → Except GenError α × GenState

/-- Monadic return. -/
def genPure {α : Type} (a : α) : Gen α := fun s => (Except.ok a, s)

/-- Monadic bind: an exception short-circuits, keeping the state. -/
def genBind {α β : Type} (m : Gen α) (f : α → Gen β) : Gen β := fun s =>
  let r := m s
  match r.1 with
  | Except.ok a => f a r.2
  | Except.error e => (Except.error e, r.2)

/-- Sequencing of two unit computations. -/
def genSeq (m k : Gen Unit) : Gen Unit := genBind m fun _ => k

/-- The output stream model: the index of the write call that throws,
if any. -/
structure OutStream where
  writeFailsAt : Option Nat
deriving Repr, DecidableEq

/-- One output.write call: it either throws or appends the line to the
trace; either way the call counter advances. -/
def write (st : OutStream) (line : String) : Gen Unit := fun s =>
  if st.writeFailsAt = some s.writeCount then
    (Except.error GenError.writeError, { s with writeCount := s.writeCount + 1 })
  else
    (Except.ok (), { s with writeCount := s.writeCount + 1,
                            written := s.written ++ [line] })

/-- Write a list of lines in order. -/
def writeAll (st : OutStream) : List String → Gen Unit
  | [] => genPure ()
  | l :: ls => genSeq (write st l) (writeAll st ls)

/-- The output.end call. -/
def outputEnd : Gen Unit := fun s =>
  (Except.ok (), { s with endCalls := s.endCalls + 1 })

/-- The db.destroy call. -/
def dbDestroy : Gen Unit := fun s =>
  (Except.ok (), { s with destroyCalls := s.destroyCalls + 1 })

/-- The JS try/finally: run the body, then the finalizer on the
resulting state; the body result (value or exception) propagates,
except that an exception from the finalizer itself would win. -/
def tryFinally (body fin : Gen Unit) : Gen Unit := fun s =>
  let r := body s
  let r2 := fin r.2
  match r2.1 with
  | Except.error e2 => (Except.error e2, r2.2)
  | Except.ok _ => (r.1, r2.2)

/-- The database handle model: the results of the two catalog queries,
none meaning the query throws. The column rows are held in catalog
order (schema, table, ordinal position). -/
structure Db where
  enumRows : Option (List Enum)
  catalogColumns : Option (List Column)

/-- Run a catalog query: a missing result throws a database error. -/
def liftQuery {α : Type} (o : Option α) : Gen α := fun s =>
  match o with
  | some a => (Except.ok a, s)
  | none => (Except.error GenError.dbError, s)

/-- The column catalog query of updateTypes: the include and exclude
schema sets and the table exclude list are passed to the query, which
returns the filtered rows. -/
def columnsQuery (db : Db) (options : Options) : Gen (List Column) :=
  let schemaList := options.schema.getD ["public"]
  let parts := partitionSchemas schemaList
  genBind (liftQuery db.catalogColumns) fun rows =>
    genPure (filterColumns rows parts.1 parts.2 options.exclude)

/-- The try-block body of updateTypes: fetch the enums, emit the enum
blocks, fetch the filtered columns, emit the tables enum, the tables
type, the record types, and the suffix. -/
def updateTypesBody (db : Db) (st : OutStream) (options : Options) :
    Gen Unit :=
  genBind (liftQuery db.enumRows) fun enums =>
    genSeq (writeAll st (enumLines enums options.overrides))
      (genBind (columnsQuery db options) fun columns =>
        genSeq (writeAll st (tablesEnumLines columns options))
          (genSeq (writeAll st (tablesTypeLines columns options))
            (genSeq (writeAll st (recordTypeLines enums columns options))
              (writeAll st (suffixLines options)))))

/-- The finally clause of updateTypes: end the output stream, then
destroy the database handle. -/
def finalizer : Gen Unit := genSeq outputEnd dbDestroy

/-- updateTypes: the banner and prefix writes happen before the try
block; the body runs inside try with the finalizer in finally. -/
def updateTypes (db : Db) (st : OutStream) (options : Options) : Gen Unit :=
  genSeq (writeAll st bannerLines)
    (genSeq (writeAll st (prefixLines options))
      (tryFinally (updateTypesBody db st options) finalizer))

/-- The state a run starts from. -/
def initialState : GenState := ⟨[], 0, 0, 0⟩

/-- A computation keeps the cleanup counters untouched: the body of the
try block satisfies this, since only the finalizer ends the stream or
destroys the handle. -/
def KeepsCleanup {α : Type} (m : Gen α) : Prop :=
  ∀ s : GenState, ((m s).2.endCalls = s.endCalls)
    ∧ ((m s).2.destroyCalls = s.destroyCalls)

/-- The state reached after the banner and prefix writes when they all
succeed. -/
def preTryState (options : Options) : GenState :=
  { written := bannerLines ++ prefixLines options,
    writeCount := (bannerLines ++ prefixLines options).length,
    endCalls := 0, destroyCalls := 0 }

/-- An empty custom-types map. -/
def noEnums : String → Option String := fun _ => none

/-- The options value with every field at its default. -/
def defaultOptions : Options := {}

/-- The type-override map of the priority scenario: an exact
table.column key, an exact column key, and a storage-tag key. -/
def c1Map : TypeOverrides := fun k =>
  if k = "T.c" then some (TypeEntry.lit "A")
  else if k = "c" then some (TypeEntry.lit "B")
  else if k = "mytag" then some (TypeEntry.lit "C")
  else none

/-- Options carrying the priority-scenario type overrides. -/
def oC1 : Options := { typeOverrides := c1Map }

/-- Column c of table T with storage tag mytag. -/
def colTc : Column := ⟨"T", "c", "public", false, none, "text", "mytag"⟩

/-- A column named c in another table U, same storage tag. -/
def colUc : Column := ⟨"U", "c", "public", false, none, "text", "mytag"⟩

/-- A differently named column with the same storage tag. -/
def colUd : Column := ⟨"U", "d", "public", false, none, "text", "mytag"⟩

/-- Options with a literal wildcard type override. -/
def oStarLit : Options :=
  { typeOverrides := fun k =>
      if k = "*" then some (TypeEntry.lit "overwritten") else none }

/-- The wildcard entry appending a marker to the assembled type; a
missing second argument renders as undefined in JS. -/
def appendEntry : TypeEntry :=
  TypeEntry.fn fun _ t => some (t.getD "undefined" ++ " | appended")

/-- Options whose only type override is the appending wildcard. -/
def oAppend : Options :=
  { typeOverrides := fun k => if k = "*" then some appendEntry else none }

/-- A function entry that answers null for every column. -/
def nullFn : TypeEntry := TypeEntry.fn fun _ _ => none

/-- Type overrides where the most specific tier answers null and the
column tier holds a literal. -/
def oC5 : Options :=
  { typeOverrides := fun k =>
      if k = "T.c" then some nullFn
      else if k = "c" then some (TypeEntry.lit "B")
      else none }

/-- Column c of table T with storage tag text. -/
def colC5 : Column := ⟨"T", "c", "public", false, none, "text", "text"⟩

/-- Name overrides with a specific table entry and a wildcard function
answering null. -/
def ovC4 : NameOverrides := fun k =>
  if k = "user" then some (NameEntry.lit "CustomUser")
  else if k = "*" then some (NameEntry.fn fun _ _ _ => none)
  else none

/-- A column of the user table. -/
def colUser : Column := ⟨"user", "id", "public", false, none, "integer", "int4"⟩

/-- A smallint column as the catalog reports it: udt_name int2. -/
def colInt2 : Column := ⟨"t", "c", "public", false, none, "smallint", "int2"⟩

/-- An integer column as the catalog reports it: udt_name int4. -/
def colInt4 : Column := ⟨"t", "c", "public", false, none, "integer", "int4"⟩

/-- A nullable text array column. -/
def colTextArr : Column := ⟨"user", "text_array", "public", true, none,
  "ARRAY", "_text"⟩

/-- A catalog row living in schema log. -/
def rowLog : Column := ⟨"messages", "id", "log", false, none, "integer",
  "int4"⟩

/-- A database whose catalog holds no enums and the single log row. -/
def dbC3 : Db := ⟨some [], some [rowLog]⟩

/-- Options listing schema log both plainly and with the exclamation
prefix. -/
def oC3 : Options := { schema := some ["log", "!log"] }

/-- A database with an empty catalog. -/
def dbEx : Db := ⟨some [], some []⟩

/-- An output stream that never fails. -/
def stOk : OutStream := ⟨none⟩

/-- An output stream whose very first write throws. -/
def stFail0 : OutStream := ⟨some 0⟩

/-- C1: overrideType consults the type-override map in strictly
descending priority: the exact table.column key first, then the exact
column key, then the array-stripped storage tag; the emitted base type
equals the value of the highest-priority matching entry (function
entries called with the descriptor, literals used verbatim); in the
concrete scenario with overrides T.c to A, c to B and the tag to C,
column c of table T gets A, a column named c elsewhere gets B, and a
differently named column with the tag gets C. -/
theorem C1_type_override_priority :
    (∀ (x : Column) (o : Options) (e : TypeEntry),
        o.overrideTableColumnTypes.getD true = true →
        o.typeOverrides (x.table ++ "." ++ x.column) = some e →
        overrideType x o = applyTypeEntry e x)
  ∧ (∀ (x : Column) (o : Options) (e : TypeEntry),
        o.overrideColumnTypes.getD true = true →
        o.typeOverrides (x.table ++ "." ++ x.column) = none →
        o.typeOverrides x.column = some e →
        overrideType x o = applyTypeEntry e x)
  ∧ (∀ (x : Column) (o : Options) (e : TypeEntry),
        o.overrideDefaultTypes.getD true = true →
        o.typeOverrides (x.table ++ "." ++ x.column) = none →
        o.typeOverrides x.column = none →
        o.typeOverrides (strippedUdt x) = some e →
        overrideType x o = applyTypeEntry e x)
  ∧ (∀ (x : Column) (o : Options) (m : String → Option String) (s : String),
        overrideType x o = some s → baseType x m o = s)
  ∧ (baseType colTc noEnums oC1 = "A"
      ∧ baseType colUc noEnums oC1 = "B"
      ∧ baseType colUd noEnums oC1 = "C") := by
  refine ⟨?_, ?_, ?_, ?_, ?_⟩
  · intro x o e h1 h2
    simp [overrideType, h1, h2]
  · intro x o e h1 h2 h3
    simp [overrideType, h1, h2, h3]
  · intro x o e h1 h2 h3 h4
    simp [overrideType, h1, h2, h3, h4]
  · intro x o m s h
    simp [baseType, h]
  · exact ⟨by decide, by decide, by decide⟩

/-- Witness for C1: the priority theorem applied to column c of
table T under the concrete scenario map. -/
theorem C1_type_override_priority_witness :
    overrideType colTc oC1 = applyTypeEntry (TypeEntry.lit "A") colTc :=
  C1_type_override_priority.1 colTc oC1 (TypeEntry.lit "A") rfl rfl

/-- C2: when the type-override map holds a wildcard key, the final
emitted type of every column equals the result of that entry — the
literal value, or the function called with the descriptor and the
fully assembled type string — replacing the assembled string
unconditionally; with the appending wildcard every emitted column type
ends with the appended marker. -/
theorem C2_wildcard_type_finality :
    (∀ (x : Column) (m : String → Option String) (o : Options) (s : String),
        o.typeOverrides "*" = some (TypeEntry.lit s) →
        columnType x m o = s)
  ∧ (∀ (x : Column) (m : String → Option String) (o : Options)
        (f : Column → Option String → Option String),
        o.typeOverrides "*" = some (TypeEntry.fn f) →
        columnType x m o = jsString (f x (some (assembledType x m o))))
  ∧ (∀ (x : Column) (m : String → Option String),
        ∃ p, columnType x m oAppend = p ++ " | appended") := by
  refine ⟨?_, ?_, ?_⟩
  · intro x m o s h
    simp [columnType, typePostProcessor, h]
  · intro x m o f h
    simp [columnType, typePostProcessor, h]
  · intro x m
    refine ⟨assembledType x m oAppend, ?_⟩
    simp [columnType, typePostProcessor, oAppend, appendEntry, jsString]

/-- Witness for C2: the literal wildcard replaces the type of a
concrete column. -/
theorem C2_wildcard_type_finality_witness :
    columnType colTc noEnums oStarLit = "overwritten" :=
  C2_wildcard_type_finality.1 colTc noEnums oStarLit "overwritten" rfl

/-- C6 (failing input): the override-capable revision of getType has no
int2 case, so a smallint column, whose catalog udt_name is int2, falls
to the custom-types lookup and maps to unknown instead of number,
while int4 maps to number. -/
theorem C6_int2_maps_to_unknown :
    getType colInt2 noEnums = "unknown"
  ∧ getType colInt2 noEnums ≠ "number"
  ∧ getType colInt4 noEnums = "number" := by decide

/-- C7: the structural suffixes compose in the fixed order array then
null: a nullable array column whose base type is string, with no
wildcard override in play, emits exactly string[] | null. -/
theorem C7_array_null_suffix_order :
    ∀ (x : Column) (m : String → Option String) (o : Options),
      x.type = "ARRAY" →
      x.nullable = true →
      baseType x m o = "string" →
      o.typeOverrides "*" = none →
      columnType x m o = "string[] | null" := by
  intro x m o h1 h2 h3 h4
  simp [columnType, assembledType, typePostProcessor, h1, h2, h3, h4]

/-- Witness for C7: a concrete nullable text array column emits
string[] | null. -/
theorem C7_array_null_suffix_order_witness :
    columnType colTextArr noEnums defaultOptions = "string[] | null" :=
  C7_array_null_suffix_order colTextArr noEnums defaultOptions rfl rfl
    (by decide) rfl

/-- C5 (counterexample): a null-returning function in the most specific
tier does not fall through to the next tier: with T.c mapped to a
function answering null and c mapped to the literal B, column c of
table T gets the storage-tag mapping (string), not B. -/
theorem C5_null_fall_through_counterexample :
    overrideType colC5 oC5 = none
  ∧ baseType colC5 noEnums oC5 = "string"
  ∧ baseType colC5 noEnums oC5 ≠ "B" := by
  refine ⟨rfl, by decide, by decide⟩

/-- C5 (amended): when the matching tier's function entry returns null,
overrideType returns null at once — the remaining tiers are skipped —
and the base type falls back to the storage-tag mapping getType. -/
theorem C5_null_skips_remaining_tiers :
    ∀ (x : Column) (o : Options)
      (f : Column → Option String → Option String)
      (m : String → Option String),
      o.overrideTableColumnTypes.getD true = true →
      o.typeOverrides (x.table ++ "." ++ x.column) = some (TypeEntry.fn f) →
      f x none = none →
      overrideType x o = none ∧ baseType x m o = getType x m := by
  intro x o f m h1 h2 h3
  have hnone : overrideType x o = none := by
    simp [overrideType, h1, h2, applyTypeEntry, h3]
  exact ⟨hnone, by simp [baseType, hnone]⟩

/-- Witness for the amended C5: the null-answering specific entry of
the concrete scenario yields no override and the getType fallback. -/
theorem C5_null_skips_remaining_tiers_witness :
    overrideType colC5 oC5 = none
  ∧ baseType colC5 noEnums oC5 = getType colC5 noEnums :=
  C5_null_skips_remaining_tiers colC5 oC5 (fun _ _ => none) noEnums
    rfl rfl rfl

/-- C4 (counterexample): with the table name user mapped to CustomUser
and a wildcard function answering null, the specific tier resolves
CustomUser but overrideName returns null, so the resolved-so-far name
is not preserved. -/
theorem C4_wildcard_null_counterexample :
    specificOverrideName colUser Category.table ovC4 = some "CustomUser"
  ∧ overrideName colUser Category.table ovC4 = none
  ∧ overrideName colUser Category.table ovC4 ≠ some "CustomUser" := by
  refine ⟨rfl, rfl, by simp [overrideName, specificOverrideName, ovC4,
    applyNameEntry, categoryValue, colUser]⟩

/-- C4 (amended): in overrideName a wildcard entry always fires last
and its result replaces the name resolved so far; when the wildcard
function answers null, overrideName returns null — the callers then
fall back to the default transform, discarding any name a more
specific override had set. -/
theorem C4_wildcard_fires_last :
    (∀ (x : Column) (category : Category) (ov : NameOverrides)
        (e : NameEntry),
        ov "*" = some e →
        overrideName x category ov
          = applyNameEntry e x category (specificOverrideName x category ov))
  ∧ (∀ (x : Column) (category : Category) (ov : NameOverrides)
        (f : Column → Category → Option String → Option String),
        ov "*" = some (NameEntry.fn f) →
        f x category (specificOverrideName x category ov) = none →
        overrideName x category ov = none) := by
  constructor
  · intro x category ov e h
    simp [overrideName, h]
  · intro x category ov f h1 h2
    simp [overrideName, h1, applyNameEntry, h2]

/-- Witness for the amended C4: the wildcard of the concrete scenario
fires last and nullifies the specific result. -/
theorem C4_wildcard_fires_last_witness :
    overrideName colUser Category.table ovC4 = none :=
  C4_wildcard_fires_last.2 colUser Category.table ovC4
    (fun _ _ _ => none) rfl rfl

/-- Every entry the schema partition puts into the exclude list starts
with the exclamation mark, kept verbatim from the option list. -/
theorem partitionSchemas_exclude_startsWith (L : List String) :
    ∀ s ∈ (partitionSchemas L).2, jsStartsWith s "!" = true := by
  suffices h : ∀ acc : List String × List String,
      (∀ s ∈ acc.2, jsStartsWith s "!" = true) →
      ∀ s ∈ (L.foldl (fun acc s =>
          if jsStartsWith s "!" then (acc.1, acc.2 ++ [s])
          else (acc.1 ++ [s], acc.2)) acc).2,
        jsStartsWith s "!" = true by
    exact h ([], []) (by simp)
  induction L with
  | nil => intro acc hacc; simpa using hacc
  | cons a as ih =>
    intro acc hacc s hs
    simp only [List.foldl_cons] at hs
    by_cases ha : jsStartsWith a "!" = true
    · refine ih (acc.1, acc.2 ++ [a]) ?_ s (by simpa [ha] using hs)
      intro t ht
      rcases List.mem_append.mp ht with h1 | h1
      · exact hacc t h1
      · simp only [List.mem_singleton] at h1; exact h1 ▸ ha
    · refine ih (acc.1 ++ [a], acc.2) ?_ s ?_
      · exact hacc
      · simpa [ha] using hs

/-- C3 (counterexample): listing schema log both plainly and with the
exclamation prefix still selects the log rows — the exclude entry
keeps its prefix and never matches the schema name — and the log
table's declaration appears in the generated output. -/
theorem C3_exclude_wins_counterexample :
    filterColumns [rowLog] (partitionSchemas ["log", "!log"]).1
        (partitionSchemas ["log", "!log"]).2 [] = [rowLog]
  ∧ "export type LogMessages = \x7b\n"
      ∈ (updateTypes dbC3 stOk oC3 initialState).2.written := by
  constructor
  · decide
  · decide

/-- C3 (amended): the exclude set keeps the exclamation prefix of its
entries, so for any schema name that does not itself start with the
prefix the exclude filter is vacuous: a row is selected exactly when
its schema is among the include entries and its table is not excluded;
in particular listing both s and the prefixed s still selects schema s
(include wins). -/
theorem C3_include_wins :
    ∀ (L : List String) (rows : List Column) (excl : List String)
      (x : Column),
      jsStartsWith x.schema "!" = false →
      (x ∈ filterColumns rows (partitionSchemas L).1
          (partitionSchemas L).2 excl
        ↔ x ∈ rows ∧ x.schema ∈ (partitionSchemas L).1
            ∧ x.table ∉ excl) := by
  intro L rows excl x hx
  have hexc : (partitionSchemas L).2.contains x.schema = false := by
    cases hc : (partitionSchemas L).2.contains x.schema
    · rfl
    · have hmem := List.mem_of_elem_eq_true hc
      have := partitionSchemas_exclude_startsWith L x.schema hmem
      rw [hx] at this
      exact absurd this Bool.false_ne_true
  constructor
  · intro h
    have h1 := List.mem_filter.mp h
    have h2 := h1.2
    simp only [Bool.and_eq_true, Bool.not_eq_true'] at h2
    refine ⟨h1.1, List.mem_of_elem_eq_true h2.1.1, ?_⟩
    intro hmem
    have hcon : excl.contains x.table = true := List.elem_eq_true_of_mem hmem
    rw [h2.2] at hcon
    exact absurd hcon Bool.false_ne_true
  · intro ⟨h1, h2, h3⟩
    refine List.mem_filter.mpr ⟨h1, ?_⟩
    have h3b : excl.contains x.table = false := by
      cases hc : excl.contains x.table
      · rfl
      · exact absurd (List.mem_of_elem_eq_true hc) h3
    simp only [Bool.and_eq_true, Bool.not_eq_true']
    exact ⟨⟨List.elem_eq_true_of_mem h2, hexc⟩, h3b⟩

/-- Witness for the amended C3: the log row is selected under the
schema list naming log both ways. -/
theorem C3_include_wins_witness :
    rowLog ∈ filterColumns [rowLog] (partitionSchemas ["log", "!log"]).1
      (partitionSchemas ["log", "!log"]).2 [] :=
  (C3_include_wins ["log", "!log"] [rowLog] [] rowLog (by decide)).mpr
    ⟨by decide, by decide, by decide⟩

/-- genPure keeps the cleanup counters. -/
theorem keeps_genPure {α : Type} (a : α) : KeepsCleanup (genPure a) :=
  fun _ => ⟨rfl, rfl⟩

/-- genBind keeps the cleanup counters when both parts do. -/
theorem keeps_genBind {α β : Type} {m : Gen α} {f : α → Gen β}
    (hm : KeepsCleanup m) (hf : ∀ a, KeepsCleanup (f a)) :
    KeepsCleanup (genBind m f) := by
  intro s
  have hm1 := hm s
  unfold genBind
  cases hr : (m s).1 with
  | ok a =>
    have hf1 := hf a (m s).2
    simp only [hr]
    exact ⟨hf1.1.trans hm1.1, hf1.2.trans hm1.2⟩
  | error e =>
    simp only [hr]
    exact hm1

/-- genSeq keeps the cleanup counters when both parts do. -/
theorem keeps_genSeq {m k : Gen Unit} (hm : KeepsCleanup m)
    (hk : KeepsCleanup k) : KeepsCleanup (genSeq m k) :=
  keeps_genBind hm fun _ => hk

/-- A single write keeps the cleanup counters. -/
theorem keeps_write (st : OutStream) (l : String) :
    KeepsCleanup (write st l) := by
  intro s
  constructor <;> (unfold write; split <;> rfl)

/-- Writing a list of lines keeps the cleanup counters. -/
theorem keeps_writeAll (st : OutStream) (ls : List String) :
    KeepsCleanup (writeAll st ls) := by
  induction ls with
  | nil => exact keeps_genPure ()
  | cons l ls ih => exact keeps_genSeq (keeps_write st l) ih

/-- A catalog query keeps the cleanup counters. -/
theorem keeps_liftQuery {α : Type} (o : Option α) :
    KeepsCleanup (liftQuery o) := by
  intro s
  cases o <;> exact ⟨rfl, rfl⟩

/-- The column query keeps the cleanup counters. -/
theorem keeps_columnsQuery (db : Db) (options : Options) :
    KeepsCleanup (columnsQuery db options) := by
  unfold columnsQuery
  exact keeps_genBind (keeps_liftQuery _) fun _ => keeps_genPure _

/-- The whole try-block body keeps the cleanup counters: only the
finalizer ends the stream or destroys the handle. -/
theorem keeps_updateTypesBody (db : Db) (st : OutStream)
    (options : Options) : KeepsCleanup (updateTypesBody db st options) := by
  unfold updateTypesBody
  refine keeps_genBind (keeps_liftQuery _) fun enums => ?_
  refine keeps_genSeq (keeps_writeAll _ _) ?_
  refine keeps_genBind (keeps_columnsQuery _ _) fun columns => ?_
  exact keeps_genSeq (keeps_writeAll _ _)
    (keeps_genSeq (keeps_writeAll _ _)
      (keeps_genSeq (keeps_writeAll _ _) (keeps_writeAll _ _)))

/-- Running the finalizer bumps both cleanup counters by one and never
fails. -/
theorem finalizer_run (s : GenState) :
    finalizer s = (Except.ok (),
      { s with endCalls := s.endCalls + 1,
               destroyCalls := s.destroyCalls + 1 }) := rfl

/-- The try/finally with the cleanup finalizer: the body result
propagates unchanged and each cleanup counter grows by exactly one,
whatever the body did. -/
theorem tryFinally_finalizer (body : Gen Unit) (h : KeepsCleanup body)
    (s : GenState) :
    (tryFinally body finalizer s).1 = (body s).1
  ∧ (tryFinally body finalizer s).2.endCalls = s.endCalls + 1
  ∧ (tryFinally body finalizer s).2.destroyCalls = s.destroyCalls + 1 := by
  have hb := h s
  refine ⟨?_, ?_, ?_⟩ <;> simp [tryFinally, finalizer_run, hb.1, hb.2]

/-- Sequencing after a computation that succeeded continues from its
state. -/
theorem genSeq_ok {m k : Gen Unit} {s s1 : GenState}
    (hm : m s = (Except.ok (), s1)) : genSeq m k s = k s1 := by
  simp [genSeq, genBind, hm]

/-- When no write in range fails, writeAll appends all its lines and
advances the call counter by their number. -/
theorem writeAll_ok (st : OutStream) (ls : List String) :
    ∀ s : GenState,
      (∀ k, k < ls.length → st.writeFailsAt ≠ some (s.writeCount + k)) →
      writeAll st ls s =
        (Except.ok (), { s with written := s.written ++ ls,
                                writeCount := s.writeCount + ls.length }) := by
  induction ls with
  | nil =>
    intro s h
    show genPure () s = _
    simp [genPure]
  | cons l ls ih =>
    intro s h
    have h0 : ¬ st.writeFailsAt = some s.writeCount := by
      have := h 0 (by simp)
      simpa using this
    show genBind (write st l) (fun _ => writeAll st ls) s = _
    have hw : write st l s = (Except.ok (),
        { s with writeCount := s.writeCount + 1,
                 written := s.written ++ [l] }) := by
      unfold write
      rw [if_neg h0]
    simp only [genBind, hw]
    rw [ih _ ?_]
    · simp [List.append_assoc]
      omega
    · intro k hk
      have := h (k + 1) (by simpa using Nat.succ_lt_succ hk)
      simpa [Nat.add_assoc, Nat.add_comm 1 k] using this

/-- Under successful banner and prefix writes, a run of updateTypes is
the try/finally of the body started from the post-banner state. -/
theorem updateTypes_run (db : Db) (st : OutStream) (options : Options)
    (h : ∀ k, k < (bannerLines ++ prefixLines options).length →
        st.writeFailsAt ≠ some k) :
    updateTypes db st options initialState
      = tryFinally (updateTypesBody db st options) finalizer
          (preTryState options) := by
  unfold updateTypes
  have hb : writeAll st bannerLines initialState
      = (Except.ok (), ⟨bannerLines, bannerLines.length, 0, 0⟩) := by
    have hban := writeAll_ok st bannerLines initialState (fun k hk => by
      have htot : k < (bannerLines ++ prefixLines options).length := by
        simp only [List.length_append]
        omega
      simpa [initialState] using h k htot)
    simpa [initialState] using hban
  rw [genSeq_ok hb]
  have hp : writeAll st (prefixLines options)
        ⟨bannerLines, bannerLines.length, 0, 0⟩
      = (Except.ok (), preTryState options) := by
    have hpre := writeAll_ok st (prefixLines options)
      ⟨bannerLines, bannerLines.length, 0, 0⟩ (fun k hk => by
        refine h (bannerLines.length + k) ?_
        simp only [List.length_append]
        omega)
    simpa [preTryState, List.length_append] using hpre
  rw [genSeq_ok hp]

/-- C8 (amended): on every run whose banner and prefix writes succeed,
output.end and db.destroy are each invoked exactly once, whatever
happens inside the try block (normal completion, a catalog query
failure or an output write failure), and the body outcome — the error,
if any — propagates to the caller unchanged. The banner and prefix
writes precede the try block, so the guarantee does not cover a
failure there. -/
theorem C8_cleanup_exactly_once (db : Db) (st : OutStream)
    (options : Options)
    (h : ∀ k, k < (bannerLines ++ prefixLines options).length →
        st.writeFailsAt ≠ some k) :
    (updateTypes db st options initialState).2.endCalls = 1
  ∧ (updateTypes db st options initialState).2.destroyCalls = 1
  ∧ (updateTypes db st options initialState).1
      = (updateTypesBody db st options (preTryState options)).1 := by
  have hrun := updateTypes_run db st options h
  have hfin := tryFinally_finalizer (updateTypesBody db st options)
    (keeps_updateTypesBody db st options) (preTryState options)
  rw [hrun]
  refine ⟨?_, ?_, hfin.1⟩
  · rw [hfin.2.1]
    rfl
  · rw [hfin.2.2]
    rfl

/-- Witness for the amended C8: a concrete run with a healthy stream
cleans up exactly once. -/
theorem C8_cleanup_exactly_once_witness :
    (updateTypes dbEx stOk defaultOptions initialState).2.endCalls = 1
  ∧ (updateTypes dbEx stOk defaultOptions initialState).2.destroyCalls
      = 1 :=
  ⟨(C8_cleanup_exactly_once dbEx stOk defaultOptions (by decide)).1,
   (C8_cleanup_exactly_once dbEx stOk defaultOptions (by decide)).2.1⟩

/-- C8 (counterexample): when the very first banner write throws — a
write outside the try block — the error propagates without output.end
or db.destroy ever being called, so cleanup is not guaranteed on every
exit path. -/
theorem C8_missing_cleanup_counterexample :
    (updateTypes dbEx stFail0 defaultOptions initialState).1
      = Except.error GenError.writeError
  ∧ (updateTypes dbEx stFail0 defaultOptions initialState).2.endCalls = 0
  ∧ (updateTypes dbEx stFail0 defaultOptions initialState).2.destroyCalls
      = 0 :=
  ⟨rfl, rfl, rfl⟩

/-- C9: the generation pass is deterministic: two runs over equal
catalog results, equal stream behaviour and equal options write
identical line sequences to the output. -/
theorem C9_two_run_determinism (db1 db2 : Db) (st1 st2 : OutStream)
    (o1 o2 : Options) (hdb : db1 = db2) (hst : st1 = st2)
    (ho : o1 = o2) :
    (updateTypes db1 st1 o1 initialState).2.written
      = (updateTypes db2 st2 o2 initialState).2.written := by
  rw [hdb, hst, ho]

/-- Witness for C9: two identical concrete runs coincide. -/
theorem C9_two_run_determinism_witness :
    (updateTypes dbEx stOk defaultOptions initialState).2.written
      = (updateTypes dbEx stOk defaultOptions initialState).2.written :=
  C9_two_run_determinism dbEx dbEx stOk stOk defaultOptions
    defaultOptions rfl rfl rfl

end KnexTypes
